import Mathlib

/-!
mountain: a concurrent HTTP load generator

A shallow embedding of `src/main.go`.

* `newReceiver` : the aggregator goroutine, as a function of the sequence of
  outcomes it dequeues from its channel.
* `sendRequest` : the worker loop, as a function of the results of `client.Do`.
* `generateBody`, `dataToJson`, `dataToFrom`, `stringInSlice` : the request
  builder.

Go `int` and `time.Duration` are 64 bit two's complement integers; they are
embedded as `Int` and every `++`, `+=` and `/` is reduced with `wrap64`.
-/

namespace Mountain

/-! ## Machine integers -/

/-- Reduction of an integer to the two's complement range `[-2^63, 2^63)`. -/
def wrap64 (x : Int) : Int := (x + 2 ^ 63) % 2 ^ 64 - 2 ^ 63

/-- The values a Go `int64` can hold. -/
def inInt64 (x : Int) : Prop := -(2 ^ 63) ≤ x ∧ x < 2 ^ 63

/-- The constant `time.Minute`, in nanoseconds. -/
def minute : Int := 60000000000

/-! ## The aggregator (`newReceiver`) -/

/-- The struct `CountData` of the source. -/
structure CountData where
  total : Int
  successNumber : Int
  badNumber : Int
  maxTime : Int
  minTime : Int
  totalTime : Int
  meanTime : Int
  deriving DecidableEq

/-- The struct `ResponseData` of the source. -/
structure ResponseData where
  isSuccess : Bool
  timing : Int
  deriving DecidableEq

/-- The initial statistics, `count := CountData{minTime: time.Minute}`. -/
def initCount : CountData :=
  { total := 0, successNumber := 0, badNumber := 0, maxTime := 0,
    minTime := minute, totalTime := 0, meanTime := 0 }

/-- The statistics update of one loop iteration (lines 65-78). -/
def countOutcome (count : CountData) (x : ResponseData) : CountData :=
  let count := { count with total := wrap64 (count.total + 1) }
  if x.isSuccess then
    let count := { count with successNumber := wrap64 (count.successNumber + 1) }
    let count := { count with totalTime := wrap64 (count.totalTime + x.timing) }
    let count := if x.timing > count.maxTime then { count with maxTime := x.timing } else count
    if x.timing < count.minTime then { count with minTime := x.timing } else count
  else
    { count with badNumber := wrap64 (count.badNumber + 1) }

/-- How the aggregator goroutine stands after the outcomes given to it. -/
inductive Status where
  /-- The channel is drained and `range c` waits for the next outcome. -/
  | waiting
  /-- The report was printed, `exit` closed and the goroutine returned. -/
  | returned
  /-- Runtime panic "integer divide by zero" at line 81. -/
  | divideByZero
  deriving DecidableEq

/-- The observable result of the aggregator: its statistics, its status, the
values handed to `fmt.Printf` (if it was reached) and whether `close(exit)`
was executed. -/
structure Run where
  count : CountData
  status : Status
  report : Option CountData
  exitClosed : Bool
  deriving DecidableEq

/-- The body of `if count.total >= requestNumber` (lines 81-95). The division
panics on a zero divisor, before anything is printed or closed. -/
def finish (count : CountData) : Run :=
  if count.successNumber = 0 then
    { count := count, status := .divideByZero, report := none, exitClosed := false }
  else
    let count := { count with meanTime := wrap64 (Int.tdiv count.totalTime count.successNumber) }
    { count := count, status := .returned, report := some count, exitClosed := true }

/-- The loop `for x := range c` started in state `count`. -/
def receiveLoop (requestNumber : Int) : CountData → List ResponseData → Run
  | count, [] => { count := count, status := .waiting, report := none, exitClosed := false }
  | count, x :: rest =>
    let count := countOutcome count x
    if count.total ≥ requestNumber then finish count
    else receiveLoop requestNumber count rest

/-- The goroutine of `newReceiver`, run on the outcomes it dequeues. -/
def newReceiver (requestNumber : Int) (outcomes : List ResponseData) : Run :=
  receiveLoop requestNumber initCount outcomes

/-- The statistics after counting every outcome of a list. -/
def tally (outcomes : List ResponseData) : CountData :=
  outcomes.foldl countOutcome initCount

/-- The timings of the successful outcomes, in order. -/
def successTimings (outcomes : List ResponseData) : List Int :=
  (outcomes.filter (fun x => x.isSuccess)).map (fun x => x.timing)

/-! ## The worker loop (`sendRequest`) -/

/-- What `client.Do(request)` gave in one iteration: an error, or a response
with its status code, received `elapsed` nanoseconds after the request was
started (`end.Sub(start)`). -/
inductive DoResult where
  | transportError (msg : String)
  | response (statusCode : Int) (elapsed : Int)
  deriving DecidableEq

/-- What one iteration does once `client.Do` is back (lines 123-134): the
line it prints and the value it sends on the channel. Neither branch leaves
the `for` loop. -/
structure Iteration where
  printed : Option String
  pushed : Option ResponseData
  deriving DecidableEq

/-- Lines 123-134 of `sendRequest`. -/
def afterDo : DoResult → Iteration
  | .transportError msg => { printed := some msg, pushed := none }
  | .response statusCode elapsed =>
    let isSuccess := decide (200 ≤ statusCode) && decide (statusCode < 300)
    { printed := none, pushed := some ⟨isSuccess, elapsed⟩ }

/-- The values one worker of `sendRequest` sends on the channel, given the
results of its successive calls of `client.Do`. -/
def sendRequest : List DoResult → List ResponseData
  | [] => []
  | r :: rest =>
    match (afterDo r).pushed with
    | some x => x :: sendRequest rest
    | none => sendRequest rest

/-! ## The request builder (`generateBody`) -/

/-- A value held in an `interface{}` after `json.Unmarshal`: `string`, `nil`,
`bool`, `float64` (by its bit pattern), `[]interface{}` or
`map[string]interface{}`. -/
inductive Value where
  | str (s : String)
  | null
  | bool (b : Bool)
  | number (bits : Nat)
  | array (items : List Value)
  | object (fields : List (String × Value))

/-- A Go `map[string]interface{}`: its entries, in the order in which `range`
visits them. The keys of a map are distinct. -/
abbrev GoMap := List (String × Value)

/-- The well-formedness of a `GoMap`: distinct keys. -/
def GoMap.WF (m : GoMap) : Prop := (m.map Prod.fst).Nodup

/-- The character-level encoders of the standard library, which the source
calls through `json.Marshal` and `url.Values.Encode`. -/
structure Codec where
  /-- The function `url.QueryEscape`. -/
  queryEscape : String → String
  /-- The JSON string literal `encoding/json` writes for a map key. -/
  jsonString : String → String
  /-- The JSON text `encoding/json` writes for one decoded value. -/
  jsonValue : Value → String

/-- An instance for evaluating examples: nothing is escaped, and a value that
is not a string is written `null`. The standard library agrees with it on keys
and string values made of ASCII letters and digits. -/
def exampleCodec : Codec where
  queryEscape := fun s => s
  jsonString := fun s => "\"" ++ s ++ "\""
  jsonValue := fun v =>
    match v with
    | .str s => "\"" ++ s ++ "\""
    | _ => "null"

/-- How `generateBody` can end the process. -/
inductive Failure where
  /-- The `log.Fatalln` of the default case of `generateBody`, with the method
  and the `Content-Type` entry it prints. -/
  | unsupportedContentType (method : String) (v : Option Value)
  /-- The `log.Fatalln(err)` of `dataToJson`. -/
  | marshalError (err : String)
  /-- The panic of the type assertion `v.(string)` in `dataToFrom`. -/
  | notAString (key : String)

/-- The constant `JsonType`. -/
def JsonType : String := "application/json"

/-- The constant `FromType`. -/
def FromType : String := "application/x-www-form-urlencoded"

/-- The slice `MethodsOfUsingBody`: `http.MethodPost`, `http.MethodPut`,
`http.MethodPatch`. -/
def MethodsOfUsingBody : List String := ["POST", "PUT", "PATCH"]

/-- The function `stringInSlice`. -/
def stringInSlice (a : String) : List String → Bool
  | [] => false
  | b :: list => if b == a then true else stringInSlice a list

/-- Lexicographic comparison of two strings by code point, which is how Go
orders valid UTF-8 strings (it compares them byte by byte). -/
def leChars : List Char → List Char → Bool
  | [], _ => true
  | _ :: _, [] => false
  | a :: as, b :: bs =>
    if a.toNat < b.toNat then true
    else if b.toNat < a.toNat then false
    else leChars as bs

/-- The keys of a map in increasing order, as `encoding/json` and
`url.Values.Encode` sort them. -/
def sortedKeys {β : Type} (m : List (String × β)) : List String :=
  (m.map Prod.fst).insertionSort (fun a b => leChars a.data b.data = true)

/-- The function `json.Marshal` on a `map[string]interface{}`: the entries in key order,
`"key":value` separated by commas, between braces. It has no error on values
decoded from JSON. -/
def jsonMarshal (codec : Codec) (data : GoMap) : Except String String :=
  .ok ("\x7b" ++ ",".intercalate ((sortedKeys data).map fun k =>
    codec.jsonString k ++ ":" ++ codec.jsonValue ((data.lookup k).getD .null)) ++ "\x7d")

/-- The function `dataToJson`. -/
def dataToJson (codec : Codec) (data : GoMap) : Except Failure String :=
  match jsonMarshal codec data with
  | .error err => .error (.marshalError err)
  | .ok jsonString => .ok jsonString

/-- The type `url.Values`, a `map[string][]string`. -/
abbrev Values := List (String × List String)

/-- The method `Values.Set`: `v[key] = []string{value}`. -/
def Values.set (v : Values) (key value : String) : Values :=
  (key, [value]) :: v.filter (fun e => e.1 != key)

/-- The method `Values.Encode`: for the keys in increasing order, each value as
`QueryEscape(key)=QueryEscape(value)`, with `&` written before every pair but
the first. -/
def Values.encode (codec : Codec) (v : Values) : String :=
  (sortedKeys v).foldl (fun buf k =>
    ((v.lookup k).getD []).foldl (fun buf value =>
      let buf := if buf.length > 0 then buf ++ "&" else buf
      buf ++ codec.queryEscape k ++ "=" ++ codec.queryEscape value) buf) ""

/-- The loop `for k, v := range data { body.Set(k, v.(string)) }`. -/
def dataToFromLoop (body : Values) : GoMap → Except Failure Values
  | [] => .ok body
  | (k, .str s) :: rest => dataToFromLoop (body.set k s) rest
  | (k, _) :: _ => .error (.notAString k)

/-- The function `dataToFrom`. -/
def dataToFrom (codec : Codec) (data : GoMap) : Except Failure String :=
  match dataToFromLoop [] data with
  | .error e => .error e
  | .ok body => .ok (body.encode codec)

/-- The assertion `str, _ := v.(string)`: the string held by `v`, the empty
string when `v` is nil or of another type. -/
def asString (v : Option Value) : String :=
  match v with
  | some (.str s) => s
  | _ => ""

/-- The function `generateBody`. The result is the content of the reader, `none` for the
`nil` reader. -/
def generateBody (codec : Codec) (method : String) (headers data : GoMap) :
    Except Failure (Option String) :=
  if stringInSlice method MethodsOfUsingBody && data.length != 0 then
    let v := headers.lookup "Content-Type"
    let str := asString v
    if str = JsonType then
      match dataToJson codec data with
      | .error e => .error e
      | .ok body => .ok (some body)
    else if str = FromType then
      match dataToFrom codec data with
      | .error e => .error e
      | .ok body => .ok (some body)
    else .error (.unsupportedContentType method v)
  else .ok none

/-! ## Arithmetic of `wrap64` -/

theorem wrap64_of_inInt64 {x : Int} (h : inInt64 x) : wrap64 x = x := by
  unfold inInt64 at h
  unfold wrap64
  omega

theorem inInt64_wrap64 (x : Int) : inInt64 (wrap64 x) := by
  unfold inInt64 wrap64
  omega

theorem wrap64_add_wrap64 (a b : Int) : wrap64 (wrap64 a + b) = wrap64 (a + b) := by
  unfold wrap64
  omega

theorem wrap64_succ {n : Int} (h0 : 0 ≤ n) (h1 : n + 1 < 2 ^ 63) : wrap64 (n + 1) = n + 1 := by
  unfold wrap64
  omega

/-! ## One iteration -/

theorem countOutcome_success (c : CountData) (t : Int) :
    countOutcome c ⟨true, t⟩ =
      { total := wrap64 (c.total + 1),
        successNumber := wrap64 (c.successNumber + 1),
        badNumber := c.badNumber,
        maxTime := if t > c.maxTime then t else c.maxTime,
        minTime := if t < c.minTime then t else c.minTime,
        totalTime := wrap64 (c.totalTime + t),
        meanTime := c.meanTime } := by
  unfold countOutcome
  by_cases h1 : t > c.maxTime <;> by_cases h2 : t < c.minTime <;> simp [h1, h2]

theorem countOutcome_failure (c : CountData) (t : Int) :
    countOutcome c ⟨false, t⟩ =
      { c with total := wrap64 (c.total + 1), badNumber := wrap64 (c.badNumber + 1) } := by
  simp [countOutcome]

theorem tally_nil : tally [] = initCount := rfl

theorem tally_concat (xs : List ResponseData) (x : ResponseData) :
    tally (xs ++ [x]) = countOutcome (tally xs) x := by
  simp [tally, List.foldl_append]

theorem successTimings_concat (xs : List ResponseData) (x : ResponseData) :
    successTimings (xs ++ [x]) =
      if x.isSuccess then successTimings xs ++ [x.timing] else successTimings xs := by
  unfold successTimings
  by_cases h : x.isSuccess <;> simp [List.filter_append, List.filter_cons, h]

/-! ## The statistics after a prefix of outcomes -/

theorem tally_counts (xs : List ResponseData) (h : (xs.length : Int) < 2 ^ 63) :
    (tally xs).total = xs.length ∧
    (tally xs).successNumber = xs.countP (fun x => x.isSuccess) ∧
    (tally xs).badNumber = xs.countP (fun x => !x.isSuccess) := by
  induction xs using List.reverseRecOn with
  | nil => simp [tally_nil, initCount]
  | append_singleton xs x ih =>
    have hlen : ((xs ++ [x]).length : Int) = xs.length + 1 := by simp
    rw [hlen] at h
    obtain ⟨h1, h2, h3⟩ := ih (by omega)
    have hs : xs.countP (fun x => x.isSuccess) ≤ xs.length := List.countP_le_length _
    have hb : xs.countP (fun x => !x.isSuccess) ≤ xs.length := List.countP_le_length _
    rw [tally_concat]
    obtain ⟨b, t⟩ := x
    cases b
    · rw [countOutcome_failure]
      simp only [List.countP_append, List.countP_cons, List.countP_nil, List.length_append,
        List.length_singleton]
      refine ⟨?_, ?_, ?_⟩
      · show wrap64 ((tally xs).total + 1) = _
        rw [h1, wrap64_succ (by omega) (by omega)]; simp
      · show (tally xs).successNumber = _
        rw [h2]; simp
      · show wrap64 ((tally xs).badNumber + 1) = _
        rw [h3, wrap64_succ (by omega) (by omega)]; simp
    · rw [countOutcome_success]
      simp only [List.countP_append, List.countP_cons, List.countP_nil, List.length_append,
        List.length_singleton]
      refine ⟨?_, ?_, ?_⟩
      · show wrap64 ((tally xs).total + 1) = _
        rw [h1, wrap64_succ (by omega) (by omega)]; simp
      · show wrap64 ((tally xs).successNumber + 1) = _
        rw [h2, wrap64_succ (by omega) (by omega)]; simp
      · show (tally xs).badNumber = _
        rw [h3]; simp

theorem tally_totalTime (xs : List ResponseData) :
    (tally xs).totalTime = wrap64 (successTimings xs).sum := by
  induction xs using List.reverseRecOn with
  | nil => simp [tally_nil, initCount, successTimings, wrap64]
  | append_singleton xs x ih =>
    rw [tally_concat, successTimings_concat]
    obtain ⟨b, t⟩ := x
    cases b
    · rw [countOutcome_failure]; simpa using ih
    · rw [countOutcome_success]
      show wrap64 ((tally xs).totalTime + t) = _
      rw [ih, wrap64_add_wrap64]; simp

theorem tally_minTime (xs : List ResponseData) :
    (tally xs).minTime = (successTimings xs).foldl min minute := by
  induction xs using List.reverseRecOn with
  | nil => simp [tally_nil, initCount, successTimings]
  | append_singleton xs x ih =>
    rw [tally_concat, successTimings_concat]
    obtain ⟨b, t⟩ := x
    cases b
    · rw [countOutcome_failure]; simpa using ih
    · rw [countOutcome_success]
      show (if t < (tally xs).minTime then t else (tally xs).minTime) = _
      simp only [if_true, List.foldl_append, List.foldl_cons, List.foldl_nil, ← ih]
      rw [min_def]
      split_ifs <;> omega

theorem tally_maxTime (xs : List ResponseData) :
    (tally xs).maxTime = (successTimings xs).foldl max 0 := by
  induction xs using List.reverseRecOn with
  | nil => simp [tally_nil, initCount, successTimings]
  | append_singleton xs x ih =>
    rw [tally_concat, successTimings_concat]
    obtain ⟨b, t⟩ := x
    cases b
    · rw [countOutcome_failure]; simpa using ih
    · rw [countOutcome_success]
      show (if t > (tally xs).maxTime then t else (tally xs).maxTime) = _
      simp only [if_true, List.foldl_append, List.foldl_cons, List.foldl_nil, ← ih]
      rw [max_def]
      split_ifs <;> omega

/-! ## The loop in terms of `tally` -/

theorem receiveLoop_waiting (k : Nat) (hk : (k : Int) ≤ 2 ^ 63) (xs pre : List ResponseData)
    (h : pre.length + xs.length < k) :
    receiveLoop k (tally pre) xs =
      { count := tally (pre ++ xs), status := .waiting, report := none, exitClosed := false } := by
  induction xs generalizing pre with
  | nil => simp [receiveLoop]
  | cons x rest ih =>
    simp only [List.length_cons] at h
    have hlen : (((pre ++ [x]).length : Nat) : Int) < 2 ^ 63 := by
      simp only [List.length_append, List.length_singleton]; omega
    have htot := (tally_counts (pre ++ [x]) hlen).1
    simp only [List.length_append, List.length_singleton] at htot
    have hnot : ¬ (countOutcome (tally pre) x).total ≥ (k : Int) := by
      rw [← tally_concat, htot]; omega
    rw [receiveLoop]
    simp only [hnot, if_false]
    rw [← tally_concat, ih (pre ++ [x]) (by simp only [List.length_append, List.length_singleton]; omega)]
    simp

theorem receiveLoop_fires (k : Nat) (hk : (k : Int) < 2 ^ 63) (xs pre : List ResponseData)
    (h1 : pre.length < k) (h2 : k ≤ pre.length + xs.length) :
    receiveLoop k (tally pre) xs = finish (tally (pre ++ xs.take (k - pre.length))) := by
  induction xs generalizing pre with
  | nil => simp only [List.length_nil] at h2; omega
  | cons x rest ih =>
    simp only [List.length_cons] at h2
    have hlen : (((pre ++ [x]).length : Nat) : Int) < 2 ^ 63 := by
      simp only [List.length_append, List.length_singleton]; omega
    have htot := (tally_counts (pre ++ [x]) hlen).1
    simp only [List.length_append, List.length_singleton] at htot
    rw [receiveLoop]
    by_cases hlast : pre.length + 1 = k
    · have hge : (countOutcome (tally pre) x).total ≥ (k : Int) := by
        rw [← tally_concat, htot]; omega
      have hone : k - pre.length = 1 := by omega
      simp only [hge, if_true, hone, List.take_succ_cons, List.take_zero]
      rw [tally_concat]
    · have hnot : ¬ (countOutcome (tally pre) x).total ≥ (k : Int) := by
        rw [← tally_concat, htot]; omega
      simp only [hnot, if_false]
      rw [← tally_concat, ih (pre ++ [x])
        (by simp only [List.length_append, List.length_singleton]; omega)
        (by simp only [List.length_append, List.length_singleton]; omega)]
      have hsucc : k - pre.length = (k - (pre ++ [x]).length) + 1 := by
        simp only [List.length_append, List.length_singleton]; omega
      rw [hsucc, List.take_succ_cons]
      simp

theorem newReceiver_waiting (k : Nat) (hk : (k : Int) ≤ 2 ^ 63) (xs : List ResponseData)
    (h : xs.length < k) :
    newReceiver k xs =
      { count := tally xs, status := .waiting, report := none, exitClosed := false } := by
  have := receiveLoop_waiting k hk xs [] (by simpa using h)
  simpa [newReceiver, tally_nil] using this

theorem newReceiver_fires (k : Nat) (hk1 : 1 ≤ k) (hk : (k : Int) < 2 ^ 63)
    (xs : List ResponseData) (h : k ≤ xs.length) :
    newReceiver k xs = finish (tally (xs.take k)) := by
  have := receiveLoop_fires k hk xs [] (by simpa using hk1) (by simpa using h)
  simpa [newReceiver, tally_nil] using this

theorem finish_count_total (c : CountData) : (finish c).count.total = c.total := by
  unfold finish; split_ifs <;> rfl

theorem finish_status_ne_waiting (c : CountData) : (finish c).status ≠ .waiting := by
  unfold finish; split_ifs <;> simp

/-! ## Truncating division and the extremes -/

theorem tdiv_between {S n lo hi : Int} (hn : 0 < n) (hlo : n * lo ≤ S) (hhi : S ≤ n * hi) :
    lo ≤ S.tdiv n ∧ S.tdiv n ≤ hi := by
  by_cases hS : 0 ≤ S
  · rw [Int.tdiv_eq_ediv hS (le_of_lt hn)]
    constructor
    · exact Int.le_ediv_of_mul_le hn (by rw [Int.mul_comm]; exact hlo)
    · exact Int.ediv_le_of_le_mul hn (by rw [Int.mul_comm]; exact hhi)
  · have hT : 0 ≤ -S := by omega
    have hneg : S.tdiv n = -((-S) / n) := by
      have h := Int.neg_tdiv (-S) n
      rw [Int.neg_neg] at h
      rw [h, Int.tdiv_eq_ediv hT (le_of_lt hn)]
    rw [hneg]
    constructor
    · have : (-S) / n ≤ -lo :=
        Int.ediv_le_of_le_mul hn (by rw [Int.mul_comm, Int.mul_neg]; omega)
      omega
    · have : -hi ≤ (-S) / n :=
        Int.le_ediv_of_mul_le hn (by rw [Int.mul_comm, Int.mul_neg]; omega)
      omega

theorem inInt64_tdiv {S n : Int} (hS : inInt64 S) (hn : 0 < n) : inInt64 (S.tdiv n) := by
  unfold inInt64 at *
  have h := @tdiv_between S n (-(2 ^ 63)) (2 ^ 63 - 1) hn (by nlinarith) (by nlinarith)
  omega

theorem foldl_min_le (ts : List Int) (a : Int) :
    ts.foldl min a ≤ a ∧ ∀ t ∈ ts, ts.foldl min a ≤ t := by
  induction ts generalizing a with
  | nil => simp
  | cons t rest ih =>
    obtain ⟨h1, h2⟩ := ih (min a t)
    simp only [List.foldl_cons, List.mem_cons]
    refine ⟨le_trans h1 (min_le_left _ _), ?_⟩
    rintro u (rfl | hu)
    · exact le_trans h1 (min_le_right _ _)
    · exact h2 u hu

theorem le_foldl_max (ts : List Int) (a : Int) :
    a ≤ ts.foldl max a ∧ ∀ t ∈ ts, t ≤ ts.foldl max a := by
  induction ts generalizing a with
  | nil => simp
  | cons t rest ih =>
    obtain ⟨h1, h2⟩ := ih (max a t)
    simp only [List.foldl_cons, List.mem_cons]
    refine ⟨le_trans (le_max_left _ _) h1, ?_⟩
    rintro u (rfl | hu)
    · exact le_trans (le_max_right _ _) h1
    · exact h2 u hu

theorem length_mul_le_sum (ts : List Int) (lo : Int) (h : ∀ t ∈ ts, lo ≤ t) :
    (ts.length : Int) * lo ≤ ts.sum := by
  induction ts with
  | nil => simp
  | cons t rest ih =>
    have h1 := h t (by simp)
    have h2 := ih (fun u hu => h u (by simp [hu]))
    simp only [List.length_cons, List.sum_cons]
    push_cast
    linarith

theorem sum_le_length_mul (ts : List Int) (hi : Int) (h : ∀ t ∈ ts, t ≤ hi) :
    ts.sum ≤ (ts.length : Int) * hi := by
  induction ts with
  | nil => simp
  | cons t rest ih =>
    have h1 := h t (by simp)
    have h2 := ih (fun u hu => h u (by simp [hu]))
    simp only [List.length_cons, List.sum_cons]
    push_cast
    linarith

theorem length_successTimings (xs : List ResponseData) :
    (successTimings xs).length = xs.countP (fun x => x.isSuccess) := by
  simp [successTimings, List.countP_eq_length_filter]

theorem length_take_lt (k : Nat) (hk : (k : Int) < 2 ^ 63) (xs : List ResponseData) :
    (((xs.take k).length : Nat) : Int) < 2 ^ 63 := by
  have : (xs.take k).length ≤ k := by simp [List.length_take]
  omega

/-! ## The result of the loop once the check has fired -/

theorem finish_of_zero {c : CountData} (h : c.successNumber = 0) :
    finish c = { count := c, status := .divideByZero, report := none, exitClosed := false } := by
  simp [finish, h]

theorem finish_of_pos {c : CountData} (h : 0 < c.successNumber) (ht : inInt64 c.totalTime) :
    finish c =
      { count := { c with meanTime := Int.tdiv c.totalTime c.successNumber },
        status := .returned,
        report := some { c with meanTime := Int.tdiv c.totalTime c.successNumber },
        exitClosed := true } := by
  have hne : c.successNumber ≠ 0 := by omega
  simp [finish, hne, wrap64_of_inInt64 (inInt64_tdiv ht h)]

theorem tally_successNumber_nonneg (k : Nat) (hk : (k : Int) < 2 ^ 63) (xs : List ResponseData) :
    0 ≤ (tally (xs.take k)).successNumber := by
  rw [(tally_counts (xs.take k) (length_take_lt k hk xs)).2.1]
  exact Int.ofNat_nonneg _

theorem inInt64_tally_totalTime (xs : List ResponseData) : inInt64 (tally xs).totalTime := by
  rw [tally_totalTime]; exact inInt64_wrap64 _

/-- The loop invariant on the three counters, with the bound that keeps `++`
from wrapping. -/
theorem countOutcome_counters (c : CountData) (x : ResponseData)
    (hs : 0 ≤ c.successNumber) (hb : 0 ≤ c.badNumber) (ht : c.total + 1 < 2 ^ 63)
    (h : c.successNumber + c.badNumber = c.total) :
    0 ≤ (countOutcome c x).successNumber ∧ 0 ≤ (countOutcome c x).badNumber ∧
    (countOutcome c x).total = c.total + 1 ∧
    (countOutcome c x).successNumber + (countOutcome c x).badNumber
      = (countOutcome c x).total := by
  obtain ⟨b, t⟩ := x
  cases b
  · rw [countOutcome_failure]
    show 0 ≤ c.successNumber ∧ 0 ≤ wrap64 (c.badNumber + 1) ∧
      wrap64 (c.total + 1) = c.total + 1 ∧
      c.successNumber + wrap64 (c.badNumber + 1) = wrap64 (c.total + 1)
    rw [wrap64_succ hb (by omega), wrap64_succ (by omega) ht]
    omega
  · rw [countOutcome_success]
    show 0 ≤ wrap64 (c.successNumber + 1) ∧ 0 ≤ c.badNumber ∧
      wrap64 (c.total + 1) = c.total + 1 ∧
      wrap64 (c.successNumber + 1) + c.badNumber = wrap64 (c.total + 1)
    rw [wrap64_succ hs (by omega), wrap64_succ (by omega) ht]
    omega

theorem finish_counters (c : CountData) :
    (finish c).count.successNumber = c.successNumber ∧
    (finish c).count.badNumber = c.badNumber ∧
    (finish c).count.total = c.total := by
  unfold finish; split_ifs <;> exact ⟨rfl, rfl, rfl⟩

theorem receiveLoop_counters (k : Int) (hk : k < 2 ^ 63) (xs : List ResponseData)
    (c : CountData) (hs : 0 ≤ c.successNumber) (hb : 0 ≤ c.badNumber)
    (h : c.successNumber + c.badNumber = c.total) (ht : c.total < k ∨ c.total = 0) :
    (receiveLoop k c xs).count.successNumber + (receiveLoop k c xs).count.badNumber
      = (receiveLoop k c xs).count.total := by
  induction xs generalizing c with
  | nil => simpa [receiveLoop] using h
  | cons x rest ih =>
    obtain ⟨h1, h2, h3, h4⟩ := countOutcome_counters c x hs hb (by omega) h
    rw [receiveLoop]
    by_cases hge : (countOutcome c x).total ≥ k
    · simp only [hge, if_true]
      obtain ⟨f1, f2, f3⟩ := finish_counters (countOutcome c x)
      rw [f1, f2, f3]; exact h4
    · simp only [hge, if_false]
      exact ih (countOutcome c x) h1 h2 h4 (Or.inl (by omega))

/-! ## The request builder: which branch is taken -/

theorem stringInSlice_methods (method : String) :
    stringInSlice method MethodsOfUsingBody = true ↔
      method = "POST" ∨ method = "PUT" ∨ method = "PATCH" := by
  simp only [MethodsOfUsingBody, stringInSlice, beq_iff_eq]
  constructor
  · intro h
    by_cases h1 : "POST" = method
    · exact Or.inl h1.symm
    · by_cases h2 : "PUT" = method
      · exact Or.inr (Or.inl h2.symm)
      · by_cases h3 : "PATCH" = method
        · exact Or.inr (Or.inr h3.symm)
        · simp [h1, h2, h3] at h
  · rintro (h | h | h) <;> simp [h]

theorem generateBody_of_body (codec : Codec) (method : String) (headers data : GoMap)
    (hm : stringInSlice method MethodsOfUsingBody = true) (hd : data ≠ []) :
    generateBody codec method headers data =
      if asString (headers.lookup "Content-Type") = JsonType then
        match dataToJson codec data with
        | .error e => .error e
        | .ok body => .ok (some body)
      else if asString (headers.lookup "Content-Type") = FromType then
        match dataToFrom codec data with
        | .error e => .error e
        | .ok body => .ok (some body)
      else .error (.unsupportedContentType method (headers.lookup "Content-Type")) := by
  have hlen : (data.length != 0) = true := by
    cases data with
    | nil => exact absurd rfl hd
    | cons e rest => simp
  unfold generateBody
  simp only [hm, hlen, Bool.and_self, if_true]

theorem generateBody_of_no_body (codec : Codec) (method : String) (headers data : GoMap)
    (h : stringInSlice method MethodsOfUsingBody = false ∨ data = []) :
    generateBody codec method headers data = .ok none := by
  unfold generateBody
  rcases h with h | h
  · simp [h]
  · simp [h]

theorem dataToJson_eq (codec : Codec) (data : GoMap) :
    dataToJson codec data =
      .ok ("\x7b" ++ ",".intercalate ((sortedKeys data).map fun k =>
        codec.jsonString k ++ ":" ++ codec.jsonValue ((data.lookup k).getD .null)) ++ "\x7d") := rfl

theorem dataToFromLoop_ok_of_strings (data : GoMap) (body : Values)
    (h : ∀ e ∈ data, ∃ s, e.2 = .str s) : ∃ b, dataToFromLoop body data = .ok b := by
  induction data generalizing body with
  | nil => exact ⟨body, rfl⟩
  | cons e rest ih =>
    obtain ⟨k, v⟩ := e
    obtain ⟨s, hs⟩ := h (k, v) (by simp)
    simp only at hs
    subst hs
    simp only [dataToFromLoop]
    exact ih _ (fun e he => h e (by simp [he]))

theorem strings_of_dataToFromLoop_ok (data : GoMap) (body b : Values)
    (h : dataToFromLoop body data = .ok b) : ∀ e ∈ data, ∃ s, e.2 = .str s := by
  induction data generalizing body with
  | nil => simp
  | cons e rest ih =>
    obtain ⟨k, v⟩ := e
    cases v with
    | str s =>
      simp only [dataToFromLoop] at h
      intro e he
      rcases List.mem_cons.1 he with rfl | he
      · exact ⟨s, rfl⟩
      · exact ih _ h e he
    | null => simp [dataToFromLoop] at h
    | bool b => simp [dataToFromLoop] at h
    | number n => simp [dataToFromLoop] at h
    | array a => simp [dataToFromLoop] at h
    | object o => simp [dataToFromLoop] at h

/-! ## The order of the keys -/

theorem char_toNat_inj {a b : Char} (h : a.toNat = b.toNat) : a = b := by
  apply Char.eq_of_val_eq
  apply UInt32.eq_of_val_eq
  apply Fin.eq_of_val_eq
  exact h

theorem leChars_total (a b : List Char) : leChars a b = true ∨ leChars b a = true := by
  induction a generalizing b with
  | nil => simp [leChars]
  | cons x xs ih =>
    cases b with
    | nil => simp [leChars]
    | cons y ys =>
      simp only [leChars]
      by_cases h1 : x.toNat < y.toNat
      · simp [h1]
      · by_cases h2 : y.toNat < x.toNat
        · simp [h2]
        · simp only [h1, h2, if_false]
          exact ih ys

theorem leChars_trans (a b c : List Char) (h1 : leChars a b = true) (h2 : leChars b c = true) :
    leChars a c = true := by
  induction a generalizing b c with
  | nil => simp [leChars]
  | cons x xs ih =>
    cases b with
    | nil => simp [leChars] at h1
    | cons y ys =>
      cases c with
      | nil => simp [leChars] at h2
      | cons z zs =>
        simp only [leChars] at h1 h2 ⊢
        by_cases hxy : x.toNat < y.toNat
        · by_cases hyz : y.toNat < z.toNat
          · have : x.toNat < z.toNat := by omega
            simp [this]
          · by_cases hzy : z.toNat < y.toNat
            · simp [hyz, hzy] at h2
            · have : x.toNat < z.toNat := by omega
              simp [this]
        · by_cases hyx : y.toNat < x.toNat
          · simp [hxy, hyx] at h1
          · simp only [hxy, hyx, if_false] at h1
            by_cases hyz : y.toNat < z.toNat
            · have : x.toNat < z.toNat := by omega
              simp [this]
            · by_cases hzy : z.toNat < y.toNat
              · simp [hyz, hzy] at h2
              · simp only [hyz, hzy, if_false] at h2
                have e1 : ¬ x.toNat < z.toNat := by omega
                have e2 : ¬ z.toNat < x.toNat := by omega
                simp only [e1, e2, if_false]
                exact ih ys zs h1 h2

theorem leChars_antisymm (a b : List Char) (h1 : leChars a b = true) (h2 : leChars b a = true) :
    a = b := by
  induction a generalizing b with
  | nil =>
    cases b with
    | nil => rfl
    | cons y ys => simp [leChars] at h2
  | cons x xs ih =>
    cases b with
    | nil => simp [leChars] at h1
    | cons y ys =>
      simp only [leChars] at h1 h2
      by_cases hxy : x.toNat < y.toNat
      · have : ¬ y.toNat < x.toNat := by omega
        simp [hxy, this] at h2
      · by_cases hyx : y.toNat < x.toNat
        · simp [hxy, hyx] at h1
        · simp only [hxy, hyx, if_false] at h1 h2
          have : x = y := char_toNat_inj (by omega)
          rw [this, ih ys h1 h2]

theorem keyLe_isTotal : IsTotal String (fun a b => leChars a.data b.data = true) :=
  ⟨fun a b => leChars_total a.data b.data⟩

theorem keyLe_isTrans : IsTrans String (fun a b => leChars a.data b.data = true) :=
  ⟨fun a b c => leChars_trans a.data b.data c.data⟩

theorem keyLe_isAntisymm : IsAntisymm String (fun a b => leChars a.data b.data = true) :=
  ⟨fun a b h1 h2 => String.ext (leChars_antisymm a.data b.data h1 h2)⟩

theorem sortedKeys_perm {β : Type} (m m' : List (String × β)) (h : (m.map Prod.fst).Perm (m'.map Prod.fst)) :
    sortedKeys m = sortedKeys m' := by
  haveI := keyLe_isTotal
  haveI := keyLe_isTrans
  haveI := keyLe_isAntisymm
  unfold sortedKeys
  apply List.eq_of_perm_of_sorted (r := fun a b => leChars a.data b.data = true)
  · exact ((List.perm_insertionSort _ _).trans h).trans (List.perm_insertionSort _ _).symm
  · exact List.sorted_insertionSort _ _
  · exact List.sorted_insertionSort _ _

theorem lookup_eq_none_of_not_mem {β : Type} (m : List (String × β)) (k : String)
    (h : k ∉ m.map Prod.fst) : m.lookup k = none := by
  induction m with
  | nil => rfl
  | cons e rest ih =>
    obtain ⟨k', v⟩ := e
    simp only [List.map_cons, List.mem_cons, not_or] at h
    have hne : (k == k') = false := by simpa using h.1
    simp only [List.lookup, hne]
    exact ih h.2

theorem lookup_eq_some_iff {β : Type} (m : List (String × β)) (hn : (m.map Prod.fst).Nodup)
    (k : String) (v : β) : m.lookup k = some v ↔ (k, v) ∈ m := by
  induction m with
  | nil => simp
  | cons e rest ih =>
    obtain ⟨k', v'⟩ := e
    simp only [List.map_cons, List.nodup_cons] at hn
    by_cases hk : k = k'
    · subst hk
      simp only [List.lookup, beq_self_eq_true, Option.some.injEq, List.mem_cons, Prod.mk.injEq,
        true_and]
      constructor
      · intro h; exact Or.inl h.symm
      · rintro (h | h)
        · exact h.symm
        · exact absurd (List.mem_map_of_mem Prod.fst h) hn.1
    · have hne : (k == k') = false := by simpa using hk
      simp only [List.lookup, hne, List.mem_cons, Prod.mk.injEq, hk, false_and, false_or]
      exact ih hn.2

theorem lookup_perm {β : Type} (m m' : List (String × β)) (hn : (m.map Prod.fst).Nodup)
    (h : m.Perm m') (k : String) : m.lookup k = m'.lookup k := by
  have hn' : (m'.map Prod.fst).Nodup := (h.map Prod.fst).nodup_iff.1 hn
  apply Option.ext
  intro v
  simp only [Option.mem_def]
  rw [lookup_eq_some_iff m hn, lookup_eq_some_iff m' hn']
  exact h.mem_iff

/-! ## `url.Values` -/

theorem lookup_eq_none_iff {β : Type} (m : List (String × β)) (k : String) :
    m.lookup k = none ↔ k ∉ m.map Prod.fst := by
  induction m with
  | nil => simp
  | cons e rest ih =>
    obtain ⟨k', v⟩ := e
    by_cases hk : k = k'
    · subst hk; simp [List.lookup]
    · have hne : (k == k') = false := by simpa using hk
      simp only [List.lookup, hne, List.map_cons, List.mem_cons, hk, false_or]
      exact ih

theorem lookup_filter_ne (v : Values) (k k' : String) (h : k' ≠ k) :
    (v.filter (fun e => e.1 != k)).lookup k' = v.lookup k' := by
  induction v with
  | nil => rfl
  | cons e rest ih =>
    obtain ⟨k0, x⟩ := e
    by_cases h0 : k0 = k
    · subst h0
      have hne : (k' == k0) = false := by simpa using h
      simp [List.filter_cons, List.lookup, hne, ih]
    · have hb : ((k0, x).1 != k) = true := by simpa using h0
      simp only [List.filter_cons, hb, if_true, List.lookup]
      rw [ih]

theorem lookup_set (v : Values) (k s k' : String) :
    (v.set k s).lookup k' = if k' = k then some [s] else v.lookup k' := by
  unfold Values.set
  by_cases h : k' = k
  · subst h; simp [List.lookup]
  · have hne : (k' == k) = false := by simpa using h
    simp only [List.lookup, hne, h, if_false]
    exact lookup_filter_ne v k k' h

theorem nodup_keys_set (v : Values) (k s : String) (hn : (v.map Prod.fst).Nodup) :
    ((v.set k s).map Prod.fst).Nodup := by
  unfold Values.set
  rw [List.map_cons, List.nodup_cons]
  constructor
  · intro hmem
    obtain ⟨e, he, hek⟩ := List.mem_map.1 hmem
    have := (List.mem_filter.1 he).2
    simp at this
    exact this hek
  · exact hn.sublist ((List.filter_sublist v).map Prod.fst)

theorem dataToFromLoop_spec (data : GoMap) (body b : Values)
    (hd : (data.map Prod.fst).Nodup) (hb : (body.map Prod.fst).Nodup)
    (h : dataToFromLoop body data = .ok b) :
    (b.map Prod.fst).Nodup ∧
    (∀ k s, data.lookup k = some (.str s) → b.lookup k = some [s]) ∧
    (∀ k, data.lookup k = none → b.lookup k = body.lookup k) := by
  induction data generalizing body with
  | nil =>
    simp only [dataToFromLoop, Except.ok.injEq] at h
    subst h
    exact ⟨hb, by simp, by simp⟩
  | cons e rest ih =>
    obtain ⟨k0, v⟩ := e
    simp only [List.map_cons, List.nodup_cons] at hd
    cases v with
    | str s0 =>
      simp only [dataToFromLoop] at h
      obtain ⟨i1, i2, i3⟩ := ih (body.set k0 s0) hd.2 (nodup_keys_set body k0 s0 hb) h
      refine ⟨i1, ?_, ?_⟩
      · intro k s hk
        by_cases hk0 : k = k0
        · subst hk0
          simp only [List.lookup, beq_self_eq_true, Option.some.injEq, Value.str.injEq] at hk
          subst hk
          rw [i3 k (lookup_eq_none_of_not_mem rest k hd.1), lookup_set]
          simp
        · have hne : (k == k0) = false := by simpa using hk0
          simp only [List.lookup, hne] at hk
          exact i2 k s hk
      · intro k hk
        by_cases hk0 : k = k0
        · subst hk0
          simp [List.lookup] at hk
        · have hne : (k == k0) = false := by simpa using hk0
          simp only [List.lookup, hne] at hk
          rw [i3 k hk, lookup_set]
          simp [hk0]
    | null => simp [dataToFromLoop] at h
    | bool b => simp [dataToFromLoop] at h
    | number n => simp [dataToFromLoop] at h
    | array a => simp [dataToFromLoop] at h
    | object o => simp [dataToFromLoop] at h

/-! ## Joining with `&` -/

theorem intercalate_go_eq_foldl (sep : String) (l : List String) (acc : String) :
    String.intercalate.go acc sep l = l.foldl (fun acc a => acc ++ sep ++ a) acc := by
  induction l generalizing acc with
  | nil => rfl
  | cons a rest ih => simp only [String.intercalate.go, List.foldl_cons]; exact ih _

theorem foldl_amp_nonempty (pieces : List String) (buf : String) (hbuf : 0 < buf.length) :
    pieces.foldl (fun buf p => (if buf.length > 0 then buf ++ "&" else buf) ++ p) buf
      = pieces.foldl (fun acc a => acc ++ "&" ++ a) buf := by
  induction pieces generalizing buf with
  | nil => rfl
  | cons p rest ih =>
    simp only [List.foldl_cons]
    have h1 : (if buf.length > 0 then buf ++ "&" else buf) = buf ++ "&" := by simp [hbuf]
    rw [h1]
    apply ih
    simp only [String.length_append]
    omega

theorem foldl_amp_eq_intercalate (pieces : List String) (h : ∀ p ∈ pieces, 0 < p.length) :
    pieces.foldl (fun buf p => (if buf.length > 0 then buf ++ "&" else buf) ++ p) ""
      = "&".intercalate pieces := by
  cases pieces with
  | nil => rfl
  | cons p rest =>
    simp only [List.foldl_cons, String.intercalate]
    have h0 : (if "".length > 0 then "" ++ "&" else "") = "" := by decide
    rw [h0, String.empty_append, intercalate_go_eq_foldl]
    exact foldl_amp_nonempty rest p (h p (by simp))

/-! ## The payloads -/

theorem sortedKeys_eq_of_mem_iff {β γ : Type} (m : List (String × β)) (m' : List (String × γ))
    (hn : (m.map Prod.fst).Nodup) (hn' : (m'.map Prod.fst).Nodup)
    (h : ∀ k, k ∈ m.map Prod.fst ↔ k ∈ m'.map Prod.fst) : sortedKeys m = sortedKeys m' := by
  haveI := keyLe_isTotal
  haveI := keyLe_isTrans
  haveI := keyLe_isAntisymm
  have hp : (m.map Prod.fst).Perm (m'.map Prod.fst) := (List.perm_ext_iff_of_nodup hn hn').2 h
  unfold sortedKeys
  apply List.eq_of_perm_of_sorted (r := fun a b => leChars a.data b.data = true)
  · exact ((List.perm_insertionSort _ _).trans hp).trans (List.perm_insertionSort _ _).symm
  · exact List.sorted_insertionSort _ _
  · exact List.sorted_insertionSort _ _

theorem mem_sortedKeys {β : Type} (m : List (String × β)) (k : String) :
    k ∈ sortedKeys m ↔ k ∈ m.map Prod.fst := by
  unfold sortedKeys
  exact (List.perm_insertionSort _ _).mem_iff

/-- The payload of `dataToFrom` on a map of strings: the pairs
`QueryEscape(k)=QueryEscape(v)` in key order, joined with `&`. -/
theorem dataToFrom_eq (codec : Codec) (data : GoMap) (hn : (data.map Prod.fst).Nodup)
    (hs : ∀ e ∈ data, ∃ s, e.2 = .str s) :
    dataToFrom codec data =
      .ok ("&".intercalate ((sortedKeys data).map fun k =>
        codec.queryEscape k ++ "=" ++ codec.queryEscape (asString (data.lookup k)))) := by
  obtain ⟨b, hb⟩ := dataToFromLoop_ok_of_strings data [] hs
  obtain ⟨hbn, hstr, hnone⟩ := dataToFromLoop_spec data [] b hn (by simp) hb
  have hval : ∀ k ∈ data.map Prod.fst,
      b.lookup k = some [asString (data.lookup k)] := by
    intro k hk
    cases hl : data.lookup k with
    | none => exact absurd hk ((lookup_eq_none_iff data k).1 hl)
    | some v =>
      obtain ⟨s, hsv⟩ := hs (k, v) ((lookup_eq_some_iff data hn k v).1 hl)
      simp only at hsv
      subst hsv
      rw [hstr k s hl]
      rfl
  have hkeys : sortedKeys b = sortedKeys data := by
    apply sortedKeys_eq_of_mem_iff b data hbn hn
    intro k
    constructor
    · intro hk
      by_contra hnot
      have h1 := hnone k ((lookup_eq_none_iff data k).2 hnot)
      exact ((lookup_eq_none_iff b k).1 (by rw [h1]; rfl)) hk
    · intro hk
      by_contra hnot
      have h1 := (lookup_eq_none_iff b k).2 hnot
      rw [hval k hk] at h1
      exact absurd h1 (by simp)
  unfold dataToFrom
  rw [hb]
  simp only [Values.encode, hkeys]
  rw [List.foldl_ext _
    (fun buf k => (if buf.length > 0 then buf ++ "&" else buf) ++
      (codec.queryEscape k ++ "=" ++ codec.queryEscape (asString (data.lookup k)))) ""
    (by
      intro buf k hk
      rw [hval k ((mem_sortedKeys data k).1 hk)]
      simp only [Option.getD_some, List.foldl_cons, List.foldl_nil, String.append_assoc])]
  rw [← foldl_amp_eq_intercalate, List.foldl_map]
  intro p hp
  obtain ⟨k, _, rfl⟩ := List.mem_map.1 hp
  simp only [String.length_append]
  have : "=".length = 1 := by decide
  omega

theorem dataToFrom_perm (codec : Codec) (data data' : GoMap) (hn : (data.map Prod.fst).Nodup)
    (hp : data.Perm data') (payload : String) (h : dataToFrom codec data = .ok payload) :
    dataToFrom codec data' = .ok payload := by
  have hs : ∀ e ∈ data, ∃ s, e.2 = .str s := by
    unfold dataToFrom at h
    cases hl : dataToFromLoop [] data with
    | error e => rw [hl] at h; simp at h
    | ok b => exact strings_of_dataToFromLoop_ok data [] b hl
  have hn' : (data'.map Prod.fst).Nodup := (hp.map Prod.fst).nodup_iff.1 hn
  have hs' : ∀ e ∈ data', ∃ s, e.2 = .str s := fun e he => hs e (hp.mem_iff.2 he)
  rw [dataToFrom_eq codec data hn hs] at h
  rw [dataToFrom_eq codec data' hn' hs', ← h, sortedKeys_perm data' data (hp.symm.map Prod.fst)]
  simp only [lookup_perm data data' hn hp]

theorem dataToJson_perm (codec : Codec) (data data' : GoMap) (hn : (data.map Prod.fst).Nodup)
    (hp : data.Perm data') : dataToJson codec data' = dataToJson codec data := by
  rw [dataToJson_eq, dataToJson_eq, sortedKeys_perm data' data (hp.symm.map Prod.fst)]
  simp only [lookup_perm data data' hn hp]

theorem dataToFromLoop_error (data : GoMap) (body : Values) (e : Failure)
    (h : dataToFromLoop body data = .error e) : ∃ k, e = .notAString k := by
  induction data generalizing body with
  | nil => simp [dataToFromLoop] at h
  | cons x rest ih =>
    obtain ⟨k, v⟩ := x
    cases v with
    | str s => simp only [dataToFromLoop] at h; exact ih _ h
    | null => simp only [dataToFromLoop, Except.error.injEq] at h; exact ⟨k, h.symm⟩
    | bool b => simp only [dataToFromLoop, Except.error.injEq] at h; exact ⟨k, h.symm⟩
    | number n => simp only [dataToFromLoop, Except.error.injEq] at h; exact ⟨k, h.symm⟩
    | array a => simp only [dataToFromLoop, Except.error.injEq] at h; exact ⟨k, h.symm⟩
    | object o => simp only [dataToFromLoop, Except.error.injEq] at h; exact ⟨k, h.symm⟩

theorem dataToFrom_error (codec : Codec) (data : GoMap) (e : Failure)
    (h : dataToFrom codec data = .error e) : ∃ k, e = .notAString k := by
  unfold dataToFrom at h
  cases hl : dataToFromLoop [] data with
  | error e' =>
    rw [hl] at h
    simp only [Except.error.injEq] at h
    subst h
    exact dataToFromLoop_error data [] e' hl
  | ok b => rw [hl] at h; simp at h

/-! ## Claims about the aggregator -/

/-- C1: for a target `k` with `1 ≤ k` (a Go `int`), the termination check of
`newReceiver` fires while the `k`-th outcome is processed: after each of the
first `j < k` outcomes the loop is still waiting with `total = j`; on a
sequence of at least `k` outcomes the loop has left the waiting state with
`total = k` and its result is the one of the first `k` outcomes alone, so no
later outcome is counted; on a shorter sequence the check never fires. -/
theorem C1_check_fires_at_kth_outcome (k : Nat) (xs : List ResponseData)
    (hk1 : 1 ≤ k) (hk : (k : Int) < 2 ^ 63) :
    (∀ j, j < k → j ≤ xs.length →
        (newReceiver k (xs.take j)).status = .waiting ∧
        (newReceiver k (xs.take j)).count.total = j) ∧
    (k ≤ xs.length →
        (newReceiver k xs).status ≠ .waiting ∧
        (newReceiver k xs).count.total = k ∧
        newReceiver k xs = newReceiver k (xs.take k)) ∧
    (xs.length < k →
        (newReceiver k xs).status = .waiting ∧
        (newReceiver k xs).count.total = xs.length) := by
  refine ⟨?_, ?_, ?_⟩
  · intro j hj hjl
    have hlen : (xs.take j).length = j := by simp [List.length_take, hjl]
    rw [newReceiver_waiting k (le_of_lt hk) (xs.take j) (by omega)]
    refine ⟨rfl, ?_⟩
    have := (tally_counts (xs.take j) (by omega)).1
    rw [hlen] at this
    exact this
  · intro hlen
    have hfire := newReceiver_fires k hk1 hk xs hlen
    have hlen2 : (xs.take k).length = k := by simp [List.length_take, hlen]
    refine ⟨?_, ?_, ?_⟩
    · rw [hfire]; exact finish_status_ne_waiting _
    · rw [hfire, finish_count_total]
      have := (tally_counts (xs.take k) (by omega)).1
      rw [hlen2] at this
      exact this
    · rw [hfire, newReceiver_fires k hk1 hk (xs.take k) (by omega), List.take_take]
      simp
  · intro hlen
    rw [newReceiver_waiting k (le_of_lt hk) xs hlen]
    exact ⟨rfl, (tally_counts xs (by omega)).1⟩

/-- C1, at target 3 and five outcomes: still waiting after two, fired with
`total = 3` on the third, the last two outcomes not counted. -/
theorem C1_check_fires_at_kth_outcome_witness :
    ((newReceiver (3 : Nat) ([⟨true, 5⟩, ⟨false, 7⟩, ⟨true, 9⟩, ⟨true, 1⟩, ⟨false, 2⟩].take 2)).status
        = .waiting) ∧
    (newReceiver (3 : Nat) [⟨true, 5⟩, ⟨false, 7⟩, ⟨true, 9⟩, ⟨true, 1⟩, ⟨false, 2⟩]).count.total
        = (3 : Nat) ∧
    newReceiver (3 : Nat) [⟨true, 5⟩, ⟨false, 7⟩, ⟨true, 9⟩, ⟨true, 1⟩, ⟨false, 2⟩] =
      newReceiver (3 : Nat) ([⟨true, 5⟩, ⟨false, 7⟩, ⟨true, 9⟩, ⟨true, 1⟩, ⟨false, 2⟩].take 3) :=
  have h := C1_check_fires_at_kth_outcome 3
    [⟨true, 5⟩, ⟨false, 7⟩, ⟨true, 9⟩, ⟨true, 1⟩, ⟨false, 2⟩] (by decide) (by norm_num)
  ⟨(h.1 2 (by decide) (by decide)).1, (h.2.1 (by decide)).2.1, (h.2.1 (by decide)).2.2⟩

/-- C2: `successNumber + badNumber = total` holds for the initial `CountData`,
is preserved by one iteration on any outcome (from any state whose counters
are non-negative and whose `total` can still be incremented without leaving
the range of `int`), and holds in the state reached after every prefix of
every outcome sequence, for every target: at every intermediate state and in
the state in which the termination check fires. -/
theorem C2_success_plus_bad_eq_total (k : Int) (hk : k < 2 ^ 63)
    (xs : List ResponseData) (j : Nat) :
    initCount.successNumber + initCount.badNumber = initCount.total ∧
    (∀ (c : CountData) (x : ResponseData),
        0 ≤ c.successNumber → 0 ≤ c.badNumber → c.total + 1 < 2 ^ 63 →
        c.successNumber + c.badNumber = c.total →
        (countOutcome c x).successNumber + (countOutcome c x).badNumber
          = (countOutcome c x).total) ∧
    (newReceiver k (xs.take j)).count.successNumber
        + (newReceiver k (xs.take j)).count.badNumber
      = (newReceiver k (xs.take j)).count.total := by
  refine ⟨rfl, ?_, ?_⟩
  · intro c x hs hb ht h
    exact (countOutcome_counters c x hs hb ht h).2.2.2
  · exact receiveLoop_counters k hk (xs.take j) initCount (le_refl _) (le_refl _) rfl (Or.inr rfl)

/-- C2, at target 2 and after each prefix of three outcomes. -/
theorem C2_success_plus_bad_eq_total_witness :
    (newReceiver 2 ([⟨true, 5⟩, ⟨false, 7⟩, ⟨true, 9⟩].take 1)).count.successNumber
        + (newReceiver 2 ([⟨true, 5⟩, ⟨false, 7⟩, ⟨true, 9⟩].take 1)).count.badNumber
      = (newReceiver 2 ([⟨true, 5⟩, ⟨false, 7⟩, ⟨true, 9⟩].take 1)).count.total ∧
    (newReceiver 2 ([⟨true, 5⟩, ⟨false, 7⟩, ⟨true, 9⟩].take 3)).count.successNumber
        + (newReceiver 2 ([⟨true, 5⟩, ⟨false, 7⟩, ⟨true, 9⟩].take 3)).count.badNumber
      = (newReceiver 2 ([⟨true, 5⟩, ⟨false, 7⟩, ⟨true, 9⟩].take 3)).count.total :=
  ⟨(C2_success_plus_bad_eq_total 2 (by norm_num) [⟨true, 5⟩, ⟨false, 7⟩, ⟨true, 9⟩] 1).2.2,
   (C2_success_plus_bad_eq_total 2 (by norm_num) [⟨true, 5⟩, ⟨false, 7⟩, ⟨true, 9⟩] 3).2.2⟩

/-- C3: when the total reaches the target `k`, the aggregator ends in the
divide-by-zero panic exactly when `successNumber` is 0 at that point, and then
no report is produced and `exit` is not closed; when `successNumber > 0` it
returns, having reported the statistics with
`meanTime = totalTime / successNumber` (truncating division) and closed
`exit`. If the first `k` outcomes are all failures the run ends in the panic
with `badNumber = k` and `successNumber = 0`. -/
theorem C3_divide_by_zero_iff_no_success (k : Nat) (xs : List ResponseData)
    (hk1 : 1 ≤ k) (hk : (k : Int) < 2 ^ 63) (hlen : k ≤ xs.length) :
    ((newReceiver k xs).status = .divideByZero ↔ (newReceiver k xs).count.successNumber = 0) ∧
    ((newReceiver k xs).count.successNumber = 0 →
        (newReceiver k xs).report = none ∧ (newReceiver k xs).exitClosed = false) ∧
    (0 < (newReceiver k xs).count.successNumber →
        (newReceiver k xs).status = .returned ∧
        (newReceiver k xs).report = some (newReceiver k xs).count ∧
        (newReceiver k xs).exitClosed = true ∧
        (newReceiver k xs).count.meanTime =
          Int.tdiv (newReceiver k xs).count.totalTime (newReceiver k xs).count.successNumber) ∧
    0 ≤ (newReceiver k xs).count.successNumber ∧
    ((∀ x ∈ xs.take k, x.isSuccess = false) →
        (newReceiver k xs).status = .divideByZero ∧
        (newReceiver k xs).count.badNumber = k ∧
        (newReceiver k xs).count.successNumber = 0) := by
  have hfire := newReceiver_fires k hk1 hk xs hlen
  have hnonneg := tally_successNumber_nonneg k hk xs
  have hcounts := tally_counts (xs.take k) (length_take_lt k hk xs)
  have hlen2 : (xs.take k).length = k := by simp [List.length_take, hlen]
  rcases lt_or_eq_of_le hnonneg with hpos | hzero
  · rw [hfire, finish_of_pos hpos (inInt64_tally_totalTime _)]
    refine ⟨⟨fun h => by simp at h, fun h => ?_⟩, fun h => ?_, fun _ => ⟨rfl, rfl, rfl, rfl⟩,
      hnonneg, fun hall => ?_⟩
    · have h' : (tally (xs.take k)).successNumber = 0 := h
      omega
    · have h' : (tally (xs.take k)).successNumber = 0 := h
      omega
    · have hc : (xs.take k).countP (fun x => x.isSuccess) = 0 := by
        rw [List.countP_eq_zero]
        intro x hx; simp [hall x hx]
      rw [hcounts.2.1, hc] at hpos
      simp at hpos
  · rw [hfire, finish_of_zero hzero.symm]
    refine ⟨⟨fun _ => hzero.symm, fun _ => rfl⟩, fun _ => ⟨rfl, rfl⟩, fun h => ?_,
      hnonneg, fun hall => ⟨rfl, ?_, hzero.symm⟩⟩
    · have h' : 0 < (tally (xs.take k)).successNumber := h
      omega
    · show (tally (xs.take k)).badNumber = k
      have hc : (xs.take k).countP (fun x => !x.isSuccess) = (xs.take k).length := by
        rw [List.countP_eq_length]
        intro x hx; simp [hall x hx]
      rw [hcounts.2.2, hc, hlen2]

/-- C3, for a target that always answers 500: three failures at target 3
end in the panic with `badNumber = 3` and `successNumber = 0`. -/
theorem C3_divide_by_zero_iff_no_success_witness :
    (newReceiver (3 : Nat) [⟨false, 4⟩, ⟨false, 6⟩, ⟨false, 5⟩]).status = .divideByZero ∧
    (newReceiver (3 : Nat) [⟨false, 4⟩, ⟨false, 6⟩, ⟨false, 5⟩]).count.badNumber = (3 : Nat) ∧
    (newReceiver (3 : Nat) [⟨false, 4⟩, ⟨false, 6⟩, ⟨false, 5⟩]).count.successNumber = 0 :=
  (C3_divide_by_zero_iff_no_success 3 [⟨false, 4⟩, ⟨false, 6⟩, ⟨false, 5⟩]
    (by decide) (by norm_num) (by decide)).2.2.2.2 (by decide)

/-- C4: for a target `k ≥ 1` and a sequence whose first `k` outcomes contain a
success and whose successful timings sum within `int64`, the aggregator
returns with `minTime ≤ meanTime ≤ maxTime`, `meanTime` being
`totalTime / successNumber` under truncating division, `minTime` starting at
`time.Minute` and `maxTime` at 0. -/
theorem C4_mean_between_min_and_max (k : Nat) (xs : List ResponseData)
    (hk1 : 1 ≤ k) (hk : (k : Int) < 2 ^ 63) (hlen : k ≤ xs.length)
    (hsucc : ∃ x ∈ xs.take k, x.isSuccess = true)
    (hsum : inInt64 (successTimings (xs.take k)).sum) :
    (newReceiver k xs).status = .returned ∧
    (newReceiver k xs).count.meanTime =
      Int.tdiv (newReceiver k xs).count.totalTime (newReceiver k xs).count.successNumber ∧
    (newReceiver k xs).count.minTime ≤ (newReceiver k xs).count.meanTime ∧
    (newReceiver k xs).count.meanTime ≤ (newReceiver k xs).count.maxTime := by
  have hfire := newReceiver_fires k hk1 hk xs hlen
  have hcounts := tally_counts (xs.take k) (length_take_lt k hk xs)
  have hpos : 0 < (tally (xs.take k)).successNumber := by
    rw [hcounts.2.1]
    have : 0 < (xs.take k).countP (fun x => x.isSuccess) := by
      rw [List.countP_pos_iff]
      obtain ⟨x, hx, hxs⟩ := hsucc
      exact ⟨x, hx, by simpa using hxs⟩
    exact_mod_cast this
  rw [hfire, finish_of_pos hpos (inInt64_tally_totalTime _)]
  refine ⟨rfl, rfl, ?_, ?_⟩
  · show (tally (xs.take k)).minTime
      ≤ Int.tdiv (tally (xs.take k)).totalTime (tally (xs.take k)).successNumber
    have hlo := length_mul_le_sum (successTimings (xs.take k)) (tally (xs.take k)).minTime
      (by rw [tally_minTime]; exact (foldl_min_le _ _).2)
    have hhi := sum_le_length_mul (successTimings (xs.take k)) (tally (xs.take k)).maxTime
      (by rw [tally_maxTime]; exact (le_foldl_max _ _).2)
    rw [length_successTimings, ← hcounts.2.1] at hlo hhi
    rw [tally_totalTime, wrap64_of_inInt64 hsum]
    exact (tdiv_between hpos hlo hhi).1
  · show Int.tdiv (tally (xs.take k)).totalTime (tally (xs.take k)).successNumber
      ≤ (tally (xs.take k)).maxTime
    have hlo := length_mul_le_sum (successTimings (xs.take k)) (tally (xs.take k)).minTime
      (by rw [tally_minTime]; exact (foldl_min_le _ _).2)
    have hhi := sum_le_length_mul (successTimings (xs.take k)) (tally (xs.take k)).maxTime
      (by rw [tally_maxTime]; exact (le_foldl_max _ _).2)
    rw [length_successTimings, ← hcounts.2.1] at hlo hhi
    rw [tally_totalTime, wrap64_of_inInt64 hsum]
    exact (tdiv_between hpos hlo hhi).2

/-- C4, at target 3 with timings 5 and 10 among the successes. -/
theorem C4_mean_between_min_and_max_witness :
    (newReceiver (3 : Nat) [⟨true, 5⟩, ⟨false, 7⟩, ⟨true, 10⟩, ⟨true, 1⟩]).count.minTime
      ≤ (newReceiver (3 : Nat) [⟨true, 5⟩, ⟨false, 7⟩, ⟨true, 10⟩, ⟨true, 1⟩]).count.meanTime ∧
    (newReceiver (3 : Nat) [⟨true, 5⟩, ⟨false, 7⟩, ⟨true, 10⟩, ⟨true, 1⟩]).count.meanTime
      ≤ (newReceiver (3 : Nat) [⟨true, 5⟩, ⟨false, 7⟩, ⟨true, 10⟩, ⟨true, 1⟩]).count.maxTime :=
  (C4_mean_between_min_and_max 3 [⟨true, 5⟩, ⟨false, 7⟩, ⟨true, 10⟩, ⟨true, 1⟩]
    (by decide) (by norm_num) (by decide) ⟨⟨true, 5⟩, by decide, rfl⟩
    (by unfold inInt64; decide)).2.2

/-- C5: the first success does not always replace the initial `minTime`.
With a first successful outcome of 61 s the minimum stays at `time.Minute`,
and the report printed for target 1 shows a minimum of 60 s although the only
successful latency is 61 s. -/
theorem C5_minTime_sentinel_survives_slow_success :
    (countOutcome initCount ⟨true, 61000000000⟩).minTime = 60000000000 ∧
    (countOutcome initCount ⟨true, 61000000000⟩).minTime ≠ 61000000000 ∧
    (newReceiver 1 [⟨true, 61000000000⟩]).report =
      some { total := 1, successNumber := 1, badNumber := 0, maxTime := 61000000000,
             minTime := 60000000000, totalTime := 61000000000, meanTime := 61000000000 } := by
  decide

/-- C9: for a target `k ≥ 1` and at least `k` outcomes, the state at the
termination check has `total = k`, `successNumber` the number of successes
among the first `k` outcomes, `badNumber` the number of failures among them
and `totalTime` the `int64` sum of the timings of the successes only (the
exact sum whenever that fits in `int64`); one iteration on a failure leaves
`successNumber`, `totalTime`, `maxTime`, `minTime` and `meanTime` as they
were, whatever timing it carries, and increments `badNumber` and `total`. -/
theorem C9_counts_by_kind (k : Nat) (xs : List ResponseData)
    (hk1 : 1 ≤ k) (hk : (k : Int) < 2 ^ 63) (hlen : k ≤ xs.length) :
    (newReceiver k xs).count.total = k ∧
    (newReceiver k xs).count.successNumber = (xs.take k).countP (fun x => x.isSuccess) ∧
    (newReceiver k xs).count.badNumber = (xs.take k).countP (fun x => !x.isSuccess) ∧
    (newReceiver k xs).count.totalTime = wrap64 (successTimings (xs.take k)).sum ∧
    (inInt64 (successTimings (xs.take k)).sum →
        (newReceiver k xs).count.totalTime = (successTimings (xs.take k)).sum) ∧
    (∀ (c : CountData) (t : Int),
        (countOutcome c ⟨false, t⟩).successNumber = c.successNumber ∧
        (countOutcome c ⟨false, t⟩).totalTime = c.totalTime ∧
        (countOutcome c ⟨false, t⟩).maxTime = c.maxTime ∧
        (countOutcome c ⟨false, t⟩).minTime = c.minTime ∧
        (countOutcome c ⟨false, t⟩).meanTime = c.meanTime ∧
        (countOutcome c ⟨false, t⟩).badNumber = wrap64 (c.badNumber + 1) ∧
        (countOutcome c ⟨false, t⟩).total = wrap64 (c.total + 1)) := by
  have hfire := newReceiver_fires k hk1 hk xs hlen
  have hcounts := tally_counts (xs.take k) (length_take_lt k hk xs)
  have hlen2 : (xs.take k).length = k := by simp [List.length_take, hlen]
  have htime : (finish (tally (xs.take k))).count.totalTime = (tally (xs.take k)).totalTime := by
    unfold finish; split_ifs <;> rfl
  obtain ⟨f1, f2, f3⟩ := finish_counters (tally (xs.take k))
  rw [hfire, f1, f2, f3, htime, tally_totalTime]
  refine ⟨?_, hcounts.2.1, hcounts.2.2, rfl, fun h => wrap64_of_inInt64 h, ?_⟩
  · rw [hcounts.1, hlen2]
  · intro c t
    rw [countOutcome_failure]
    exact ⟨rfl, rfl, rfl, rfl, rfl, rfl, rfl⟩

/-- C9, for target 100 and a target that always answers 200: 100 successes
give `successNumber = 100`, `badNumber = 0`, `total = 100`. -/
theorem C9_counts_by_kind_witness :
    (newReceiver (100 : Nat) (List.replicate 100 ⟨true, 7⟩)).count.successNumber = 100 ∧
    (newReceiver (100 : Nat) (List.replicate 100 ⟨true, 7⟩)).count.badNumber = 0 ∧
    (newReceiver (100 : Nat) (List.replicate 100 ⟨true, 7⟩)).count.total = 100 :=
  have h := C9_counts_by_kind 100 (List.replicate 100 ⟨true, 7⟩)
    (by decide) (by norm_num) (by simp)
  ⟨h.2.1.trans (by simp [List.countP_replicate]),
   h.2.2.1.trans (by simp [List.countP_replicate]),
   h.1.trans (by norm_num)⟩

/-! ## Claims about the request builder and the worker -/

/-- C7: when the method is not one of POST, PUT, PATCH (which is what
`stringInSlice` over `MethodsOfUsingBody` decides) or the data map is empty,
`generateBody` returns the nil payload and does not fail, whatever the
headers are. -/
theorem C7_no_body_without_body_method_or_data (codec : Codec) (method : String)
    (headers data : GoMap)
    (h : (method ≠ "POST" ∧ method ≠ "PUT" ∧ method ≠ "PATCH") ∨ data = []) :
    generateBody codec method headers data = .ok none ∧
    (stringInSlice method MethodsOfUsingBody = false ↔
      (method ≠ "POST" ∧ method ≠ "PUT" ∧ method ≠ "PATCH")) := by
  have hiff : stringInSlice method MethodsOfUsingBody = false ↔
      (method ≠ "POST" ∧ method ≠ "PUT" ∧ method ≠ "PATCH") := by
    rw [← Bool.not_eq_true, stringInSlice_methods]
    simp only [not_or]
  refine ⟨generateBody_of_no_body codec method headers data ?_, hiff⟩
  rcases h with h | h
  · exact Or.inl (hiff.2 h)
  · exact Or.inr h

/-- C7, scenario A: GET with no data and no headers gives the nil payload. -/
theorem C7_no_body_without_body_method_or_data_witness :
    generateBody exampleCodec "GET" [] [] = .ok none :=
  (C7_no_body_without_body_method_or_data exampleCodec "GET" [] []
    (Or.inl ⟨by decide, by decide, by decide⟩)).1

/-- C10: one iteration of the worker loop, as a function of the result of
`client.Do`. On a transport error nothing is sent on the channel, the worker
goes on with the remaining requests, and the aggregator's result is the one
without that iteration. On a response exactly one outcome is sent, carrying
the elapsed time and `isSuccess = true` exactly when `200 ≤ status < 300`;
199, 300, 404 and 500 give `false`, 200 and 299 give `true`. -/
theorem C10_worker_iteration :
    (∀ msg, (afterDo (.transportError msg)).pushed = none) ∧
    (∀ msg rest, sendRequest (.transportError msg :: rest) = sendRequest rest) ∧
    (∀ msg before rest, sendRequest (before ++ .transportError msg :: rest)
        = sendRequest (before ++ rest)) ∧
    (∀ msg before rest (k : Int),
        newReceiver k (sendRequest (before ++ .transportError msg :: rest))
          = newReceiver k (sendRequest (before ++ rest))) ∧
    (∀ s d, ∃ b, (afterDo (.response s d)).pushed = some ⟨b, d⟩ ∧
        (b = true ↔ 200 ≤ s ∧ s < 300)) ∧
    (∀ s d rest, ∃ b, sendRequest (.response s d :: rest) = ⟨b, d⟩ :: sendRequest rest ∧
        (b = true ↔ 200 ≤ s ∧ s < 300)) ∧
    (∀ d, (afterDo (.response 199 d)).pushed = some ⟨false, d⟩ ∧
        (afterDo (.response 300 d)).pushed = some ⟨false, d⟩ ∧
        (afterDo (.response 404 d)).pushed = some ⟨false, d⟩ ∧
        (afterDo (.response 500 d)).pushed = some ⟨false, d⟩ ∧
        (afterDo (.response 200 d)).pushed = some ⟨true, d⟩ ∧
        (afterDo (.response 299 d)).pushed = some ⟨true, d⟩) := by
  have happ : ∀ msg before rest, sendRequest (before ++ .transportError msg :: rest)
      = sendRequest (before ++ rest) := by
    intro msg before rest
    induction before with
    | nil => rfl
    | cons r before ih =>
      have hcons : ∀ l, sendRequest (r :: l) =
          match (afterDo r).pushed with
          | some x => x :: sendRequest l
          | none => sendRequest l := fun _ => rfl
      rw [List.cons_append, List.cons_append, hcons, hcons, ih]
  refine ⟨fun _ => rfl, fun _ _ => rfl, happ, ?_, ?_, ?_, ?_⟩
  · intro msg before rest k
    rw [happ]
  · intro s d
    exact ⟨decide (200 ≤ s) && decide (s < 300), rfl, by simp⟩
  · intro s d rest
    exact ⟨decide (200 ≤ s) && decide (s < 300), rfl, by simp⟩
  · intro d
    exact ⟨rfl, rfl, rfl, rfl, rfl, rfl⟩

/-- C6, as stated, fails: a POST with data whose `Content-Type` is the JSON
type with a parameter, `application/json; charset=utf-8`, is not given a JSON
payload but ends in the fatal error; and with no `Content-Type` entry at all
(or with the entry under the key `content-type`) the call fails as well,
although no other content type is declared. -/
theorem C6_json_type_with_parameter_is_fatal :
    generateBody exampleCodec "POST"
        [("Content-Type", .str "application/json; charset=utf-8")] [("a", .str "1")]
      = .error (.unsupportedContentType "POST"
          (some (.str "application/json; charset=utf-8"))) ∧
    generateBody exampleCodec "POST" [] [("a", .str "1")]
      = .error (.unsupportedContentType "POST" none) ∧
    generateBody exampleCodec "POST"
        [("content-type", .str "application/json")] [("a", .str "1")]
      = .error (.unsupportedContentType "POST" none) :=
  ⟨rfl, rfl, rfl⟩

/-- C6, amended: for a method among POST, PUT, PATCH and a non-empty data map,
`generateBody` compares the string under the exact key `Content-Type` (the
empty string when the entry is absent or not a string) with
`application/json` and `application/x-www-form-urlencoded`. On the first the
payload is the JSON object of the data in key order; on the second, for a
data map of strings, the pairs `key=value` in key order joined with `&`; and
the call ends in the fatal unsupported-content-type error exactly when the
string is neither of the two. -/
theorem C6_content_type_compared_exactly (codec : Codec) (method : String)
    (headers data : GoMap)
    (hm : method = "POST" ∨ method = "PUT" ∨ method = "PATCH") (hd : data ≠ []) :
    (asString (headers.lookup "Content-Type") = "application/json" →
        generateBody codec method headers data =
          .ok (some ("\x7b" ++ ",".intercalate ((sortedKeys data).map fun k =>
            codec.jsonString k ++ ":" ++ codec.jsonValue ((data.lookup k).getD .null))
            ++ "\x7d"))) ∧
    (asString (headers.lookup "Content-Type") = "application/x-www-form-urlencoded" →
        GoMap.WF data → (∀ e ∈ data, ∃ s, e.2 = .str s) →
        generateBody codec method headers data =
          .ok (some ("&".intercalate ((sortedKeys data).map fun k =>
            codec.queryEscape k ++ "=" ++ codec.queryEscape (asString (data.lookup k)))))) ∧
    ((∃ m v, generateBody codec method headers data = .error (.unsupportedContentType m v)) ↔
        (asString (headers.lookup "Content-Type") ≠ "application/json" ∧
         asString (headers.lookup "Content-Type") ≠ "application/x-www-form-urlencoded")) ∧
    (asString (headers.lookup "Content-Type") ≠ "application/json" →
        asString (headers.lookup "Content-Type") ≠ "application/x-www-form-urlencoded" →
        generateBody codec method headers data =
          .error (.unsupportedContentType method (headers.lookup "Content-Type"))) := by
  have hbody := generateBody_of_body codec method headers data
    ((stringInSlice_methods method).2 hm) hd
  have hne : JsonType ≠ FromType := by decide
  refine ⟨?_, ?_, ?_, ?_⟩
  · intro h
    have h' : asString (headers.lookup "Content-Type") = JsonType := h
    rw [hbody, if_pos h', dataToJson_eq]
  · intro h hwf hs
    have h' : asString (headers.lookup "Content-Type") = FromType := h
    have h1 : ¬ asString (headers.lookup "Content-Type") = JsonType := by
      rw [h']; exact fun e => hne e.symm
    rw [hbody, if_neg h1, if_pos h', dataToFrom_eq codec data hwf hs]
  · constructor
    · rintro ⟨m, v, hmv⟩
      rw [hbody] at hmv
      by_cases h1 : asString (headers.lookup "Content-Type") = JsonType
      · rw [if_pos h1, dataToJson_eq] at hmv
        simp at hmv
      · by_cases h2 : asString (headers.lookup "Content-Type") = FromType
        · rw [if_neg h1, if_pos h2] at hmv
          cases hf : dataToFrom codec data with
          | error e =>
            obtain ⟨k, hk⟩ := dataToFrom_error codec data e hf
            rw [hf, hk] at hmv
            simp at hmv
          | ok b => rw [hf] at hmv; simp at hmv
        · exact ⟨h1, h2⟩
    · rintro ⟨h1, h2⟩
      have h1' : ¬ asString (headers.lookup "Content-Type") = JsonType := h1
      have h2' : ¬ asString (headers.lookup "Content-Type") = FromType := h2
      exact ⟨method, headers.lookup "Content-Type", by rw [hbody, if_neg h1', if_neg h2']⟩
  · intro h1 h2
    have h1' : ¬ asString (headers.lookup "Content-Type") = JsonType := h1
    have h2' : ¬ asString (headers.lookup "Content-Type") = FromType := h2
    rw [hbody, if_neg h1', if_neg h2']

/-- C6 amended, scenario F: PATCH with `Content-Type: text/plain` and data
ends in the fatal error. -/
theorem C6_content_type_compared_exactly_witness :
    generateBody exampleCodec "PATCH" [("Content-Type", .str "text/plain")] [("a", .str "1")]
      = .error (.unsupportedContentType "PATCH" (some (.str "text/plain"))) :=
  (C6_content_type_compared_exactly exampleCodec "PATCH"
    [("Content-Type", .str "text/plain")] [("a", .str "1")]
    (Or.inr (Or.inr rfl)) (List.cons_ne_nil _ _)).2.2.2 (by decide) (by decide)

/-- C8: `generateBody` is a function of its arguments, and its payload does
not depend on the order in which the entries of the header map and of the
data map are visited: for maps with distinct keys, whenever it returns a
payload on `(method, headers, data)` it returns the same payload on every
permutation of the entries of `headers` and of `data`. -/
theorem C8_payload_independent_of_map_order (codec : Codec) (method : String)
    (headers headers' data data' : GoMap)
    (hh : GoMap.WF headers) (hhp : headers.Perm headers')
    (hd : GoMap.WF data) (hdp : data.Perm data')
    (payload : Option String)
    (h : generateBody codec method headers data = .ok payload) :
    generateBody codec method headers' data' = .ok payload := by
  by_cases hm : stringInSlice method MethodsOfUsingBody = true
  · by_cases hnil : data = []
    · subst hnil
      have hnil' : data' = [] := hdp.symm.eq_nil
      subst hnil'
      rw [generateBody_of_no_body codec method headers [] (Or.inr rfl)] at h
      rw [generateBody_of_no_body codec method headers' [] (Or.inr rfl)]
      exact h
    · have hnil' : data' ≠ [] := fun e => hnil (by rw [e] at hdp; exact hdp.eq_nil)
      rw [generateBody_of_body codec method headers data hm hnil] at h
      rw [generateBody_of_body codec method headers' data' hm hnil',
        ← lookup_perm headers headers' hh hhp "Content-Type"]
      by_cases h1 : asString (headers.lookup "Content-Type") = JsonType
      · rw [if_pos h1] at h ⊢
        rw [dataToJson_perm codec data data' hd hdp]
        exact h
      · by_cases h2 : asString (headers.lookup "Content-Type") = FromType
        · rw [if_neg h1, if_pos h2] at h ⊢
          cases hf : dataToFrom codec data with
          | error e => rw [hf] at h; simp at h
          | ok b =>
            rw [dataToFrom_perm codec data data' hd hdp b hf]
            rw [hf] at h
            exact h
        · rw [if_neg h1, if_neg h2] at h
          simp at h
  · have hm' : stringInSlice method MethodsOfUsingBody = false := by simpa using hm
    rw [generateBody_of_no_body codec method headers data (Or.inl hm')] at h
    rw [generateBody_of_no_body codec method headers' data' (Or.inl hm')]
    exact h

/-- C8, on a form body: the entries `b=2`, `a=1` and the entries `a=1`, `b=2`
give the same payload `a=1&b=2`. -/
theorem C8_payload_independent_of_map_order_witness :
    generateBody exampleCodec "POST"
        [("Content-Type", .str "application/x-www-form-urlencoded")]
        [("a", .str "1"), ("b", .str "2")]
      = .ok (some "a=1&b=2") :=
  C8_payload_independent_of_map_order exampleCodec "POST"
    [("Content-Type", .str "application/x-www-form-urlencoded")]
    [("Content-Type", .str "application/x-www-form-urlencoded")]
    [("b", .str "2"), ("a", .str "1")] [("a", .str "1"), ("b", .str "2")]
    (by unfold GoMap.WF; decide) (List.Perm.refl _)
    (by unfold GoMap.WF; decide) (List.Perm.swap _ _ _)
    (some "a=1&b=2") rfl

end Mountain
